import Mathlib

/-!
Verification model of the IconPlus-Warehouse request-arbitration core.

The definitions below are a shallow embedding of the request / item-state
engine of the repository: the tables of the Supabase schema become lists of
records, and each service method (`itemService.ts`, `pendingRequestService.ts`)
and each UI flow that drives them (`ItemList.tsx`) becomes a pure function on
a store value.  Opaque generated uuids are modelled by natural numbers drawn
from a fresh-id counter; timestamps are naturals passed in by the caller.
Storage failures during the multi-step approval sequence are modelled by an
injected failure oracle, mirroring the fact that every completed `await`
persists even when a later one throws.
-/

namespace Warehouse

/-- Item lifecycle status: the `items.status` check constraint of the schema
and the `Item` type in `lib/supabase.ts`. -/
inductive Status where
  | available
  | used
  | pending_borrow
  | pending_return
  | archived
deriving DecidableEq

/-- Pending request type (`pending_requests.type`): `use` or `return`
(the latter is named `ret` because `return` is reserved in Lean). -/
inductive ReqType where
  | use
  | ret
deriving DecidableEq

/-- History action taxonomy (`histories.action` check constraint). -/
inductive HAction where
  | created
  | edited
  | borrowed
  | returned
  | archived
  | rejected
  | requested_borrow
  | requested_return
deriving DecidableEq

/-- A row of `users` (password, role and account status are not consulted by
any of the operations modelled here and are elided). -/
structure User where
  id : Nat
  username : String
deriving DecidableEq

/-- A row of `items`. -/
structure Item where
  id : Nat
  material : String
  description : Option String
  serial_number : String
  status : Status
  last_used_by : Option Nat
  changed_by : Option Nat
  archived_reason : Option String
  archived_at : Option Nat
  created_at : Nat
  updated_at : Nat
  pending_request_id : Option Nat
deriving DecidableEq

/-- A row of `pending_requests`. -/
structure PendingRequest where
  id : Nat
  item_id : Nat
  type : ReqType
  requested_by : Nat
  requested_at : Nat
deriving DecidableEq

/-- A row of `histories` (its opaque generated uuid is elided; the rows are
kept newest-first, matching the most-recent-first read order). -/
structure History where
  item_id : Nat
  action : HAction
  performed_by : Nat
  timestamp : Nat
  details : Option String
  previous_status : Option Status
  new_status : Option Status
deriving DecidableEq

/-- The backing store: the four relations plus a counter supplying the fresh
ids that `gen_random_uuid()` produces. -/
structure DB where
  items : List Item
  pending_requests : List PendingRequest
  histories : List History
  users : List User
  next_id : Nat
deriving DecidableEq

/-- The optional `additionalData` argument of `ItemService.updateItemStatus`.
The outer `Option` models a field left `undefined`; the inner one models a
field explicitly set to `null`. -/
structure AdditionalData where
  last_used_by : Option (Option Nat) := none
  archived_reason : Option (Option String) := none
deriving DecidableEq

/-- The row mutation performed by `ItemService.updateItemStatus`
(itemService.ts lines 89-136), translated branch for branch: always set
status / changed_by / updated_at; apply `last_used_by` only when it is not
`undefined`; when archiving, stamp `archived_at` and copy a truthy reason;
when restoring (`available` with `archived_reason` explicitly `null`), clear
the archive fields; finally apply any defined `archived_reason`. -/
def updateItemStatus (item : Item) (status : Status) (changedBy : Nat)
    (additionalData : AdditionalData) (now : Nat) : Item :=
  let base := { item with status := status, changed_by := some changedBy, updated_at := now }
  let withLub :=
    match additionalData.last_used_by with
    | some v => { base with last_used_by := v }
    | none => base
  let withArch :=
    if status = Status.archived then
      let stamped := { withLub with archived_at := some now }
      match additionalData.archived_reason with
      | some (some r) => if r = "" then stamped else { stamped with archived_reason := some r }
      | _ => stamped
    else if status = Status.available ∧ additionalData.archived_reason = some none then
      { withLub with archived_at := none, archived_reason := none }
    else withLub
  match additionalData.archived_reason with
  | some v => { withArch with archived_reason := v }
  | none => withArch

/-- `supabase.from(items).update(...).eq(id, itemId)`: apply `f` to every row
whose id matches. -/
def dbUpdateItem (db : DB) (itemId : Nat) (f : Item → Item) : DB :=
  { db with items := db.items.map (fun i => if i.id == itemId then f i else i) }

/-- `HistoryService.createEntry` (the second document bundled into
`src/services/userService.ts`, after the separator): one row is inserted into
`histories` and nothing else is touched.  The source coerces a falsy
`details` / `previous_status` / `new_status` to `null` (`entry.details ||
null`); every call site modelled here passes defined, non-empty values, for
which that coercion is the identity, so the entry is taken already in row
form.  `getItemHistory` reads most-recent-first (`order timestamp
descending`), so the newest entry sits at the head of the list. -/
def createEntry (db : DB) (e : History) : DB :=
  { db with histories := e :: db.histories }

/-- `ItemService.getItemById`. -/
def getItemById (db : DB) (id : Nat) : Option Item :=
  db.items.find? (fun i => i.id == id)

/-- `ItemService.hasUserPendingRequest` (itemService.ts lines 202-217): the
tuple query ends in `.single()`, which produces a row exactly when one row
matches (both zero and several rows yield the `PGRST116` error, mapped to
`false`). -/
def hasUserPendingRequest (db : DB) (itemId userId : Nat) (actionType : ReqType) : Bool :=
  (db.pending_requests.filter
    (fun r => r.item_id == itemId && r.requested_by == userId && r.type == actionType)).length == 1

/-- The `{ valid, message }` result of `ItemService.validateReturnRequest`. -/
structure Validation where
  valid : Bool
  message : Option String
deriving DecidableEq

/-- Username of the joined user row, when the reference resolves. -/
def usernameOf (db : DB) (uid : Nat) : Option String :=
  (db.users.find? (fun u => u.id == uid)).map (fun u => u.username)

/-- `ItemService.validateReturnRequest` (itemService.ts lines 178-197). -/
def validateReturnRequest (db : DB) (itemId userId : Nat) : Validation :=
  match getItemById db itemId with
  | none => { valid := false, message := some ("Item not found") }
  | some item =>
    if item.status ≠ Status.used then
      { valid := false, message := some ("Item is not currently in use") }
    else if item.last_used_by ≠ some userId then
      { valid := false,
        message := some ("Only "
          ++ (match item.last_used_by with
              | some uid => (usernameOf db uid).getD ("the borrower")
              | none => "the borrower")
          ++ " can return this item") }
    else { valid := true, message := none }

/-- The `use` / `return` literal of a request type, as it appears in the
source strings. -/
def typeName : ReqType → String
  | ReqType.use => "use"
  | ReqType.ret => "return"

/-- `PendingRequestService.createRequest` (pendingRequestService.ts lines
13-48): duplicate check first, then return-validation for return requests,
then the insert with a fresh id. -/
def createRequest (db : DB) (item_id requested_by : Nat) (action_type : ReqType)
    (now : Nat) : Except String DB :=
  if hasUserPendingRequest db item_id requested_by action_type then
    Except.error ("You already have a pending request for this item")
  else if action_type == ReqType.ret && !(validateReturnRequest db item_id requested_by).valid then
    Except.error ((validateReturnRequest db item_id requested_by).message.getD
      ("Cannot create return request"))
  else
    let newRequest : PendingRequest :=
      { id := db.next_id, item_id := item_id, type := action_type,
        requested_by := requested_by, requested_at := now }
    Except.ok { db with
      pending_requests := newRequest :: db.pending_requests,
      next_id := db.next_id + 1 }

/-- The `borrow` / `return` wording used in the rejection details. -/
def actionDescription : ReqType → String
  | ReqType.use => "borrow"
  | ReqType.ret => "return"

/-- The outcome of `approveRequest`: the thrown error, if any, together with
the store as it stands afterwards (completed awaits persist even when a later
one throws; the `catch` block only logs and rethrows). -/
structure ApproveResult where
  err : Option String
  db : DB
deriving DecidableEq

/-- One rejected-loser history entry of the `approveRequest` loop
(pendingRequestService.ts lines 176-188): `previous_status` is the item
status as fetched before the decision and `new_status` the post-decision
status. -/
def mkRejectedEntry (itemId approvedBy now : Nat) (loser : PendingRequest)
    (loserName winnerName : String) (winnerType : ReqType)
    (prevStatus newStatus : Status) : History :=
  { item_id := itemId, action := HAction.rejected, performed_by := approvedBy,
    timestamp := now,
    details := some ("Request automatically rejected - " ++ loserName ++ "'s "
      ++ actionDescription loser.type ++ " request was denied because "
      ++ winnerName ++ "'s " ++ typeName winnerType ++ " request was approved"),
    previous_status := some prevStatus, new_status := some newStatus }

/-- The rejected-losers loop of `approveRequest`: one history append per other
request whose requester join resolves.  `fails` injects a storage failure at
the given append index; a failure stops the loop and the appends already made
persist. -/
def rejectLosers (db : DB) (others : List PendingRequest) (step : Nat)
    (mk : PendingRequest → String → History) (fails : Nat → Bool) :
    Option String × DB × Nat :=
  match others with
  | [] => (none, db, step)
  | o :: rest =>
    match db.users.find? (fun u => u.id == o.requested_by) with
    | none => rejectLosers db rest step mk fails
    | some u =>
      if fails step then (some ("Failed to create history entry"), db, step)
      else rejectLosers (createEntry db (mk o u.username)) rest (step + 1) mk fails

/-- The history entries the loop produces, in loop order: one per other
request whose requester exists in `users`. -/
def loserEntries (users : List User) (others : List PendingRequest)
    (mk : PendingRequest → String → History) : List History :=
  match others with
  | [] => []
  | o :: rest =>
    match users.find? (fun u => u.id == o.requested_by) with
    | none => loserEntries users rest mk
    | some u => mk o u.username :: loserEntries users rest mk

/-- `newStatus` of an approval (pendingRequestService.ts line 146):
`used` for a use request, `available` for a return request. -/
def approvedStatus (t : ReqType) : Status :=
  if t == ReqType.use then Status.used else Status.available

/-- The `additionalData` of the approval item update (source lines 149-158):
the requester becomes the borrower on a use request, the borrower is cleared
on a return request. -/
def approvedData (request : PendingRequest) : AdditionalData :=
  if request.type == ReqType.use then { last_used_by := some (some request.requested_by) }
  else { last_used_by := some none }

/-- The winner history entry (source lines 166-173): `previous_status` is the
item as fetched before the update. -/
def winnerEntry (db : DB) (request : PendingRequest) (item : Item)
    (approvedBy now : Nat) : History :=
  { item_id := item.id,
    action := if request.type == ReqType.use then HAction.borrowed else HAction.returned,
    performed_by := approvedBy, timestamp := now,
    details := some ("Request approved - "
      ++ (if request.type == ReqType.use then "Item borrowed" else "Item returned")
      ++ " by " ++ ((usernameOf db request.requested_by).getD ("undefined"))),
    previous_status := some item.status, new_status := some (approvedStatus request.type) }

/-- All other open requests of the same item, of either type (source lines
138-143). -/
def otherRequestsOf (db : DB) (request : PendingRequest) (requestId : Nat) :
    List PendingRequest :=
  (db.pending_requests.filter (fun r => r.item_id == request.item_id)).filter
    (fun r => r.id != requestId)

/-- The rejected-entry builder for the losers of this approval. -/
def loserMk (db : DB) (request : PendingRequest) (item : Item)
    (approvedBy now : Nat) : PendingRequest → String → History :=
  fun o name => mkRejectedEntry item.id approvedBy now o name
    ((usernameOf db request.requested_by).getD ("undefined")) request.type
    item.status (approvedStatus request.type)

/-- `PendingRequestService.approveRequest` (pendingRequestService.ts lines
118-207).  Storage sub-steps run in source order — item status update
(index 0), winner history append (index 1), one append per resolvable loser,
then the bulk delete of every request of the item — and `fails` injects a
storage failure at a given step index.  A failed step throws and the effects
of the steps already completed persist. -/
def approveRequest (db : DB) (requestId approvedBy now : Nat)
    (fails : Nat → Bool) : ApproveResult :=
  match db.pending_requests.find? (fun r => r.id == requestId) with
  | none => { err := some ("Request not found"), db := db }
  | some request =>
    match db.items.find? (fun i => i.id == request.item_id) with
    | none => { err := some ("Item data not found in request"), db := db }
    | some item =>
      if fails 0 then { err := some ("Failed to update item status"), db := db }
      else
        let db1 := dbUpdateItem db item.id
          (fun i => updateItemStatus i (approvedStatus request.type) approvedBy
            (approvedData request) now)
        if fails 1 then { err := some ("Failed to create history entry"), db := db1 }
        else
          let db2 := createEntry db1 (winnerEntry db request item approvedBy now)
          let res := rejectLosers db2 (otherRequestsOf db request requestId) 2
            (loserMk db request item approvedBy now) fails
          match res.1 with
          | some e => { err := some e, db := res.2.1 }
          | none =>
            if fails res.2.2 then
              { err := some ("Failed to delete pending requests"), db := res.2.1 }
            else
              { err := none,
                db := { res.2.1 with pending_requests :=
                  (res.2.1).pending_requests.filter (fun r => r.item_id != request.item_id) } }

/-- `PendingRequestService.rejectRequest` (pendingRequestService.ts lines
212-252): one rejected history entry with unchanged status, then deletion of
only this request. -/
def rejectRequest (db : DB) (requestId rejectedBy now : Nat) : Except String DB :=
  match db.pending_requests.find? (fun r => r.id == requestId) with
  | none => Except.error ("Request not found")
  | some request =>
    match db.items.find? (fun i => i.id == request.item_id) with
    | none => Except.error ("Item data not found in request")
    | some item =>
      let db1 := createEntry db
        { item_id := item.id, action := HAction.rejected, performed_by := rejectedBy,
          timestamp := now,
          details := some ("Request manually rejected - "
            ++ ((usernameOf db request.requested_by).getD ("undefined")) ++ "'s "
            ++ typeName request.type ++ " request was denied by admin"),
          previous_status := some item.status, new_status := some item.status }
      Except.ok { db1 with pending_requests :=
        db1.pending_requests.filter (fun r => r.id != requestId) }

/-- The client-side duplicate check `hasUserPendingRequest` of `ItemList.tsx`
(lines 250-259): an existence check over the loaded request list (modelled as
a fresh read of the store). -/
def clientHasPendingRequest (db : DB) (itemId userId : Nat) (actionType : ReqType) : Bool :=
  db.pending_requests.any
    (fun r => r.item_id == itemId && r.requested_by == userId && r.type == actionType)

/-- `handleBorrowReturn` of `ItemList.tsx` (lines 262-327) together with the
service calls it makes: the submit-request flow of the spec.  `item` is the
row the user acts on. -/
def handleBorrowReturn (db : DB) (item : Item) (currentUserId now : Nat) :
    Except String DB :=
  if item.status == Status.used && item.last_used_by != some currentUserId then
    Except.error ("You can only return items that you borrowed")
  else
    let actionType := if item.status == Status.available then ReqType.use else ReqType.ret
    if clientHasPendingRequest db item.id currentUserId actionType then
      Except.error ("You already have a pending " ++ typeName actionType
        ++ " request for this item")
    else
      match (match item.status with
        | Status.available => some HAction.requested_borrow
        | Status.used => some HAction.requested_return
        | _ => none) with
      | none => Except.error ("Cannot perform action on this item")
      | some historyAction =>
        match createRequest db item.id currentUserId actionType now with
        | Except.error e => Except.error e
        | Except.ok db1 =>
          Except.ok (createEntry db1
            { item_id := item.id, action := historyAction,
              performed_by := currentUserId, timestamp := now,
              details := some (if historyAction == HAction.requested_borrow
                then "Requested to borrow item" else "Requested to return item"),
              previous_status := some item.status, new_status := some item.status })

/-- `confirmArchive` of `ItemList.tsx` (lines 118-153): the archive status
update plus its history entry.  No status validation happens here. -/
def confirmArchive (db : DB) (item : Item) (reason : String) (userId now : Nat) : DB :=
  let db1 := dbUpdateItem db item.id
    (fun i => updateItemStatus i Status.archived userId
      { archived_reason := some (some reason) } now)
  createEntry db1
    { item_id := item.id, action := HAction.archived, performed_by := userId,
      timestamp := now, details := some ("Item archived: " ++ reason),
      previous_status := some item.status, new_status := some Status.archived }

/-- `confirmUnarchive` of `ItemList.tsx` (lines 155-194): restore to
available, clearing borrower and archive metadata, plus an `edited` history
entry. -/
def confirmUnarchive (db : DB) (item : Item) (reason : String) (userId now : Nat) : DB :=
  let db1 := dbUpdateItem db item.id
    (fun i => updateItemStatus i Status.available userId
      { last_used_by := some none, archived_reason := some none } now)
  createEntry db1
    { item_id := item.id, action := HAction.edited, performed_by := userId,
      timestamp := now, details := some ("Item restored from archive: " ++ reason),
      previous_status := some Status.archived, new_status := some Status.available }

/-- Render guard of the admin action cell in `ItemList.tsx` (lines 611-646):
an archived item shows the Restore button instead, and the Archive button is
rendered only when the status is not `used`. -/
def archiveButtonShown (item : Item) : Bool :=
  item.status != Status.archived && item.status != Status.used

/-- Render guard of the Restore button (`ItemList.tsx` line 611). -/
def restoreButtonShown (item : Item) : Bool :=
  item.status == Status.archived

/-- `ItemService.createItem` (itemService.ts lines 47-68): inserts a fresh
available item; fails when the serial number already exists (unique
constraint, Postgres error 23505). -/
def createItem (db : DB) (material : String) (description : Option String)
    (serial_number : String) (changedBy now : Nat) : Except String DB :=
  if db.items.any (fun i => i.serial_number == serial_number) then
    Except.error ("An item with this serial number already exists")
  else
    let newItem : Item :=
      { id := db.next_id, material := material, description := description,
        serial_number := serial_number, status := Status.available,
        last_used_by := none, changed_by := some changedBy, archived_reason := none,
        archived_at := none, created_at := now, updated_at := now,
        pending_request_id := none }
    Except.ok { db with items := newItem :: db.items, next_id := db.next_id + 1 }

/-- The failure oracle of a run in which every storage call succeeds. -/
def noFail : Nat → Bool := fun _ => false

/-- One UI-reachable core operation.  Archive and restore go through the
admin buttons of `ItemList.tsx` and therefore carry the render guards that
decide whether the action is offered at all; a guarded-off or failing
operation leaves the store unchanged.  Approval runs with no injected
storage failure. -/
inductive Op where
  | create (material : String) (description : Option String) (serial : String) (changedBy : Nat)
  | submit (itemId userId : Nat)
  | approve (requestId approvedBy : Nat)
  | reject (requestId rejectedBy : Nat)
  | archive (itemId : Nat) (reason : String) (userId : Nat)
  | restore (itemId : Nat) (reason : String) (userId : Nat)

/-- Apply one operation at time `now`. -/
def step (db : DB) (op : Op) (now : Nat) : DB :=
  match op with
  | Op.create m d s c =>
    match createItem db m d s c now with
    | Except.ok db1 => db1
    | Except.error _ => db
  | Op.submit itemId userId =>
    match getItemById db itemId with
    | none => db
    | some item =>
      match handleBorrowReturn db item userId now with
      | Except.ok db1 => db1
      | Except.error _ => db
  | Op.approve rid uid => (approveRequest db rid uid now noFail).db
  | Op.reject rid uid =>
    match rejectRequest db rid uid now with
    | Except.ok db1 => db1
    | Except.error _ => db
  | Op.archive itemId reason userId =>
    match getItemById db itemId with
    | none => db
    | some item =>
      if archiveButtonShown item then confirmArchive db item reason userId now else db
  | Op.restore itemId reason userId =>
    match getItemById db itemId with
    | none => db
    | some item =>
      if restoreButtonShown item then confirmUnarchive db item reason userId now else db

/-- Run a sequence of timestamped operations. -/
def run (db : DB) (ops : List (Op × Nat)) : DB :=
  ops.foldl (fun d p => step d p.1 p.2) db

/-! ### The four shapes in which `updateItemStatus` is invoked -/

theorem updateItemStatus_id (i : Item) (s : Status) (c : Nat)
    (ad : AdditionalData) (n : Nat) : (updateItemStatus i s c ad n).id = i.id := by
  unfold updateItemStatus
  repeat' split
  all_goals rfl

theorem updateItemStatus_use (i : Item) (a u n : Nat) :
    updateItemStatus i Status.used a { last_used_by := some (some u) } n
      = { i with
          status := Status.used, changed_by := some a, updated_at := n,
          last_used_by := some u } := rfl

theorem updateItemStatus_return (i : Item) (a n : Nat) :
    updateItemStatus i Status.available a { last_used_by := some none } n
      = { i with
          status := Status.available, changed_by := some a, updated_at := n,
          last_used_by := none } := rfl

theorem updateItemStatus_archive (i : Item) (u n : Nat) (r : String) :
    updateItemStatus i Status.archived u { archived_reason := some (some r) } n
      = { i with
          status := Status.archived, changed_by := some u, updated_at := n,
          archived_at := some n, archived_reason := some r } := by
  by_cases hr : r = "" <;> simp [updateItemStatus, hr]

theorem updateItemStatus_restore (i : Item) (u n : Nat) :
    updateItemStatus i Status.available u
      { last_used_by := some none, archived_reason := some none } n
      = { i with
          status := Status.available, changed_by := some u, updated_at := n,
          last_used_by := none, archived_at := none, archived_reason := none } := rfl

/-! ### Concrete fixtures used by witnesses and counterexamples -/

def alice : User := { id := 1, username := "alice" }

def bob : User := { id := 2, username := "bob" }

def drill : Item :=
  { id := 0, material := "drill", description := none,
    serial_number := "SN1", status := Status.available, last_used_by := none,
    changed_by := none, archived_reason := none, archived_at := none,
    created_at := 0, updated_at := 0, pending_request_id := none }

def drillUsed : Item := { drill with status := Status.used, last_used_by := some 1 }

def drillArchived : Item :=
  { drill with
    status := Status.archived, archived_reason := some "worn",
    archived_at := some 1 }

def reqAlice : PendingRequest :=
  { id := 1, item_id := 0, type := ReqType.use, requested_by := 1, requested_at := 0 }

def reqBob : PendingRequest :=
  { id := 2, item_id := 0, type := ReqType.use, requested_by := 2, requested_at := 1 }

def dbOneUse : DB :=
  { items := [drill], pending_requests := [reqAlice], histories := [],
    users := [alice], next_id := 3 }

def dbTwoUse : DB :=
  { items := [drill], pending_requests := [reqAlice, reqBob], histories := [],
    users := [alice, bob], next_id := 3 }

def dbUsed : DB :=
  { items := [drillUsed], pending_requests := [], histories := [],
    users := [alice, bob], next_id := 3 }

def dbArchived : DB :=
  { items := [drillArchived], pending_requests := [], histories := [],
    users := [alice], next_id := 3 }

/-- A storage failure injected at the winner history append (step index 1). -/
def failWinnerAppend : Nat → Bool := fun n => n == 1

/-! ### C1 -/

/-- **C1** (code bug): `approveRequest` is not atomic.  On a store holding one
available item with one open use request, a storage failure at the winner
history append leaves the item already marked `used` with its borrower set,
while no history entry was written and the request queue still holds the
request — the item mutation persists without its matching history entry,
exactly the inconsistency the atomicity requirement rules out.  The `catch`
block of the source only logs and rethrows; no transaction or compensation
wraps the sub-steps. -/
theorem approveRequest_failure_keeps_partial_effects :
    (approveRequest dbOneUse 1 9 5 failWinnerAppend).err
        = some ("Failed to create history entry")
    ∧ (approveRequest dbOneUse 1 9 5 failWinnerAppend).db.items
        = [{ drill with
             status := Status.used, last_used_by := some 1,
             changed_by := some 9, updated_at := 5 }]
    ∧ (approveRequest dbOneUse 1 9 5 failWinnerAppend).db.histories = []
    ∧ (approveRequest dbOneUse 1 9 5 failWinnerAppend).db.pending_requests
        = [reqAlice] := by
  refine ⟨rfl, by decide, rfl, rfl⟩

/-! ### C4 -/

/-- **C4** (counterexample): approving request 1 (Alice, `use`) over Bob's
competing request succeeds and writes exactly one rejected entry for Bob,
but that entry's `previous_status` is the item's pre-decision status
(`available`), not the post-decision status (`used`) that the claim asserts
for both fields. -/
theorem approveRequest_loser_prev_status_is_pre_decision :
    (approveRequest dbTwoUse 1 9 5 noFail).err = none
    ∧ ((approveRequest dbTwoUse 1 9 5 noFail).db.histories.filter
        (fun h => h.action == HAction.rejected))
      = [mkRejectedEntry 0 9 5 reqBob "bob" "alice" ReqType.use
          Status.available Status.used]
    ∧ (mkRejectedEntry 0 9 5 reqBob "bob" "alice" ReqType.use
        Status.available Status.used).previous_status = some Status.available
    ∧ (mkRejectedEntry 0 9 5 reqBob "bob" "alice" ReqType.use
        Status.available Status.used).new_status = some Status.used
    ∧ some Status.available ≠ some Status.used := by
  refine ⟨rfl, by decide, rfl, rfl, by decide⟩

/-! ### C8 -/

/-- **C8** (counterexample): the archive flow applied to an item currently
`used` does not fail at all — there is no `InvalidState` check anywhere in
the code — it completes and leaves the item archived (with its borrower
still recorded). -/
theorem confirmArchive_on_used_item_succeeds :
    (confirmArchive dbUsed drillUsed "broken" 9 7).items
      = [{ drillUsed with
           status := Status.archived, changed_by := some 9,
           updated_at := 7, archived_reason := some "broken", archived_at := some 7 }]
    ∧ (confirmArchive dbUsed drillUsed "broken" 9 7).histories
      = [{ item_id := 0, action := HAction.archived, performed_by := 9,
           timestamp := 7, details := some ("Item archived: broken"),
           previous_status := some Status.used,
           new_status := some Status.archived }] := by
  refine ⟨by decide, by decide⟩

/-- **C8** (amended): archiving a borrowed item is prevented only by the UI:
the Archive button is rendered exactly when the item is neither used nor
archived, and for an item currently `used` the UI archive step leaves the
store unchanged.  The operation itself performs no status validation and
never fails with `InvalidState` (the counterexample shows it succeeding on a
used item). -/
theorem archive_guarded_by_ui (db : DB) (item : Item) (itemId : Nat)
    (reason : String) (userId now : Nat)
    (hfind : getItemById db itemId = some item)
    (hused : item.status = Status.used) :
    archiveButtonShown item = false
    ∧ step db (Op.archive itemId reason userId) now = db := by
  refine ⟨?_, ?_⟩
  · simp [archiveButtonShown, hused]
  · simp [step, hfind, archiveButtonShown, hused]

/-- Witness for `archive_guarded_by_ui` at a concrete used item. -/
theorem archive_guarded_by_ui_witness :
    getItemById dbUsed 0 = some drillUsed
    ∧ drillUsed.status = Status.used
    ∧ (archiveButtonShown drillUsed = false
       ∧ step dbUsed (Op.archive 0 "broken" 9) 7 = dbUsed) :=
  ⟨by decide, by decide,
    archive_guarded_by_ui dbUsed drillUsed 0 "broken" 9 7 (by decide) (by decide)⟩

/-! ### C10 -/

/-- **C10** (confirmed): `archive` then `restore` is a round trip — every row
of the item acted on ends available, with no borrower, no archive reason and
no archive timestamp. -/
theorem archive_restore_round_trip (db : DB) (item : Item) (r1 r2 : String)
    (user1 user2 t1 t2 : Nat) :
    ∀ i ∈ (confirmUnarchive (confirmArchive db item r1 user1 t1) item r2 user2 t2).items,
      i.id = item.id →
        i.status = Status.available ∧ i.last_used_by = none
        ∧ i.archived_reason = none ∧ i.archived_at = none := by
  intro i hi hid
  simp only [confirmUnarchive, confirmArchive, createEntry, dbUpdateItem,
    List.map_map, List.mem_map, Function.comp] at hi
  obtain ⟨j, hj, rfl⟩ := hi
  by_cases hcase : j.id == item.id
  · simp [hcase, updateItemStatus_id, updateItemStatus_restore]
  · exfalso
    simp only [hcase, if_false] at hid ⊢
    rw [if_neg (by simp_all)] at hid
    exact absurd hid (by simpa using hcase)

/-- The drill row as it stands after the concrete archive-restore round
trip. -/
def drillRestored : Item := { drill with changed_by := some 9, updated_at := 8 }

/-- Witness for `archive_restore_round_trip` on a concrete store. -/
theorem archive_restore_round_trip_witness :
    drillRestored ∈ (confirmUnarchive (confirmArchive dbOneUse drill "worn" 9 7)
      drill "back" 9 8).items
    ∧ drillRestored.id = drill.id
    ∧ (drillRestored.status = Status.available ∧ drillRestored.last_used_by = none
       ∧ drillRestored.archived_reason = none ∧ drillRestored.archived_at = none) :=
  ⟨by decide, by decide,
    archive_restore_round_trip dbOneUse drill "worn" "back" 9 9 7 8 drillRestored
      (by decide) (by decide)⟩

/-! ### The success path of `approveRequest` -/

/-- When the loser loop runs to completion it changes nothing but the
histories, to which it prepends exactly the loop's entries. -/
theorem rejectLosers_ok (others : List PendingRequest) (db : DB) (s : Nat)
    (mk : PendingRequest → String → History) (fails : Nat → Bool)
    (h : (rejectLosers db others s mk fails).1 = none) :
    (rejectLosers db others s mk fails).2.1
      = { db with
          histories := (loserEntries db.users others mk).reverse ++ db.histories } := by
  induction others generalizing db s with
  | nil =>
    simp [rejectLosers, loserEntries]
  | cons o rest ih =>
    rw [rejectLosers] at h ⊢
    rw [loserEntries]
    cases hu : db.users.find? (fun u => u.id == o.requested_by) with
    | none =>
      rw [hu] at h
      simpa using ih db s (by simpa using h)
    | some u =>
      rw [hu] at h
      by_cases hf : fails s = true
      · simp [hf] at h
      · simpa [createEntry, hf] using
          ih (createEntry db (mk o u.username)) (s + 1) (by simpa [hf] using h)

/-- Full characterization of the store after a successful `approveRequest`:
the item rows of the request's item carry the post-decision status data, the
winner entry and one rejected entry per resolvable loser were appended, and
every request of the item is gone. -/
theorem approveRequest_ok_eq (db : DB) (requestId approvedBy now : Nat)
    (fails : Nat → Bool) (request : PendingRequest) (item : Item)
    (hreq : db.pending_requests.find? (fun r => r.id == requestId) = some request)
    (hitem : db.items.find? (fun i => i.id == request.item_id) = some item)
    (hok : (approveRequest db requestId approvedBy now fails).err = none) :
    (approveRequest db requestId approvedBy now fails).db
      = { items := db.items.map (fun i => if i.id == item.id
            then updateItemStatus i (approvedStatus request.type) approvedBy
              (approvedData request) now
            else i),
          pending_requests := db.pending_requests.filter
            (fun r => r.item_id != request.item_id),
          histories := (loserEntries db.users (otherRequestsOf db request requestId)
              (loserMk db request item approvedBy now)).reverse
            ++ winnerEntry db request item approvedBy now :: db.histories,
          users := db.users, next_id := db.next_id } := by
  unfold approveRequest at hok ⊢
  simp only [hreq, hitem] at hok ⊢
  by_cases h0 : fails 0 = true
  · simp [h0] at hok
  · rw [if_neg h0] at hok ⊢
    by_cases h1 : fails 1 = true
    · simp [h1] at hok
    · rw [if_neg h1] at hok ⊢
      cases hfst : (rejectLosers
          (createEntry
            (dbUpdateItem db item.id (fun i =>
              updateItemStatus i (approvedStatus request.type) approvedBy
                (approvedData request) now))
            (winnerEntry db request item approvedBy now))
          (otherRequestsOf db request requestId) 2
          (loserMk db request item approvedBy now) fails).1 with
      | some msg => simp only [hfst] at hok; simp at hok
      | none =>
        simp only [hfst] at hok ⊢
        have hdb3 := rejectLosers_ok (otherRequestsOf db request requestId)
          (createEntry
            (dbUpdateItem db item.id (fun i =>
              updateItemStatus i (approvedStatus request.type) approvedBy
                (approvedData request) now))
            (winnerEntry db request item approvedBy now)) 2
          (loserMk db request item approvedBy now) fails hfst
        by_cases hF : fails (rejectLosers
            (createEntry
              (dbUpdateItem db item.id (fun i =>
                updateItemStatus i (approvedStatus request.type) approvedBy
                  (approvedData request) now))
              (winnerEntry db request item approvedBy now))
            (otherRequestsOf db request requestId) 2
            (loserMk db request item approvedBy now) fails).2.2 = true
        · simp [hF] at hok
        · rw [if_neg hF]
          dsimp only
          rw [hdb3]
          simp [createEntry, dbUpdateItem]

/-! ### C2 -/

/-- **C2** (confirmed): after a successful `approveRequest`, the queue of the
approved request's item is empty — the winner and every competing request of
either type are deleted in the single bulk operation, however many there
were. -/
theorem approveRequest_empties_item_queue (db : DB) (requestId approvedBy now : Nat)
    (fails : Nat → Bool) (request : PendingRequest) (item : Item)
    (hreq : db.pending_requests.find? (fun r => r.id == requestId) = some request)
    (hitem : db.items.find? (fun i => i.id == request.item_id) = some item)
    (hok : (approveRequest db requestId approvedBy now fails).err = none) :
    ((approveRequest db requestId approvedBy now fails).db.pending_requests.filter
      (fun r => r.item_id == request.item_id)) = [] := by
  rw [approveRequest_ok_eq db requestId approvedBy now fails request item hreq hitem hok]
  rw [List.filter_eq_nil_iff]
  intro r hr
  simp only [List.mem_filter] at hr
  simp only [bne_iff_ne, ne_eq] at hr
  simpa using hr.2

/-- Witness for `approveRequest_empties_item_queue`: two competing use
requests, Alice's is approved. -/
theorem approveRequest_empties_item_queue_witness :
    dbTwoUse.pending_requests.find? (fun r => r.id == 1) = some reqAlice
    ∧ dbTwoUse.items.find? (fun i => i.id == reqAlice.item_id) = some drill
    ∧ (approveRequest dbTwoUse 1 9 5 noFail).err = none
    ∧ ((approveRequest dbTwoUse 1 9 5 noFail).db.pending_requests.filter
        (fun r => r.item_id == reqAlice.item_id)) = [] :=
  ⟨by decide, by decide, by decide,
    approveRequest_empties_item_queue dbTwoUse 1 9 5 noFail reqAlice drill
      (by decide) (by decide) (by decide)⟩

/-! ### C3 -/

/-- **C3** (confirmed): a successful approval updates the item according to
the approved request's type — a use request makes it `used` with the
requester as borrower, a return request makes it `available` with the
borrower cleared. -/
theorem approveRequest_sets_status_and_borrower (db : DB)
    (requestId approvedBy now : Nat) (fails : Nat → Bool)
    (request : PendingRequest) (item : Item)
    (hreq : db.pending_requests.find? (fun r => r.id == requestId) = some request)
    (hitem : db.items.find? (fun i => i.id == request.item_id) = some item)
    (hok : (approveRequest db requestId approvedBy now fails).err = none) :
    ∀ i ∈ (approveRequest db requestId approvedBy now fails).db.items,
      i.id = item.id →
        (request.type = ReqType.use →
          i.status = Status.used ∧ i.last_used_by = some request.requested_by)
        ∧ (request.type = ReqType.ret →
          i.status = Status.available ∧ i.last_used_by = none) := by
  rw [approveRequest_ok_eq db requestId approvedBy now fails request item hreq hitem hok]
  intro i hi hid
  simp only [List.mem_map] at hi
  obtain ⟨j, hj, rfl⟩ := hi
  by_cases hc : (j.id == item.id) = true
  · rw [if_pos hc]
    cases htype : request.type with
    | use => simp [approvedStatus, approvedData, htype, updateItemStatus_use]
    | ret => simp [approvedStatus, approvedData, htype, updateItemStatus_return]
  · rw [if_neg hc] at hid ⊢
    exact absurd (by simpa using hid) (by simpa using hc)

/-- Witness for `approveRequest_sets_status_and_borrower`: approving Alice's
use request marks the drill used by Alice. -/
theorem approveRequest_sets_status_and_borrower_witness :
    dbOneUse.pending_requests.find? (fun r => r.id == 1) = some reqAlice
    ∧ dbOneUse.items.find? (fun i => i.id == reqAlice.item_id) = some drill
    ∧ (approveRequest dbOneUse 1 9 5 noFail).err = none
    ∧ ∀ i ∈ (approveRequest dbOneUse 1 9 5 noFail).db.items,
        i.id = drill.id →
          (reqAlice.type = ReqType.use →
            i.status = Status.used ∧ i.last_used_by = some reqAlice.requested_by)
          ∧ (reqAlice.type = ReqType.ret →
            i.status = Status.available ∧ i.last_used_by = none) :=
  ⟨by decide, by decide, by decide,
    approveRequest_sets_status_and_borrower dbOneUse 1 9 5 noFail reqAlice drill
      (by decide) (by decide) (by decide)⟩

/-! ### C4 (amended) -/

/-- Every entry the loser loop produces is built by the entry builder from
some loser and some resolved username. -/
theorem loserEntries_mem {users : List User} {others : List PendingRequest}
    {mk : PendingRequest → String → History} {e : History}
    (he : e ∈ loserEntries users others mk) :
    ∃ (o : PendingRequest) (u : User), e = mk o u.username := by
  induction others with
  | nil => simp [loserEntries] at he
  | cons o rest ih =>
    rw [loserEntries] at he
    cases hu : users.find? (fun x : User => x.id == o.requested_by) with
    | none =>
      rw [hu] at he
      exact ih he
    | some u =>
      rw [hu] at he
      rcases List.mem_cons.mp he with rfl | he2
      · exact ⟨o, u, rfl⟩
      · exact ih he2

/-- **C4** (amended): during a successful approval, exactly one `rejected`
history entry is appended per other open request of the item whose requester
join resolves (the appended histories are exactly the loop's entries, newest
first, on top of the winner entry), and each such entry carries
`previous_status` equal to the item's **pre-decision** status,
`new_status` equal to the post-decision status, and details naming winner
and loser. -/
theorem approveRequest_rejection_entries (db : DB)
    (requestId approvedBy now : Nat) (fails : Nat → Bool)
    (request : PendingRequest) (item : Item)
    (hreq : db.pending_requests.find? (fun r => r.id == requestId) = some request)
    (hitem : db.items.find? (fun i => i.id == request.item_id) = some item)
    (hok : (approveRequest db requestId approvedBy now fails).err = none) :
    (approveRequest db requestId approvedBy now fails).db.histories
      = (loserEntries db.users (otherRequestsOf db request requestId)
          (loserMk db request item approvedBy now)).reverse
        ++ winnerEntry db request item approvedBy now :: db.histories
    ∧ ∀ e ∈ loserEntries db.users (otherRequestsOf db request requestId)
        (loserMk db request item approvedBy now),
      e.action = HAction.rejected ∧ e.previous_status = some item.status
      ∧ e.new_status = some (approvedStatus request.type) := by
  refine ⟨?_, ?_⟩
  · rw [approveRequest_ok_eq db requestId approvedBy now fails request item hreq hitem hok]
  · intro e he
    obtain ⟨o, u, rfl⟩ := loserEntries_mem he
    simp [loserMk, mkRejectedEntry]

/-- Witness for `approveRequest_rejection_entries`: Bob's competing request
is rejected when Alice's is approved. -/
theorem approveRequest_rejection_entries_witness :
    dbTwoUse.pending_requests.find? (fun r => r.id == 1) = some reqAlice
    ∧ dbTwoUse.items.find? (fun i => i.id == reqAlice.item_id) = some drill
    ∧ (approveRequest dbTwoUse 1 9 5 noFail).err = none
    ∧ ((approveRequest dbTwoUse 1 9 5 noFail).db.histories
        = (loserEntries dbTwoUse.users (otherRequestsOf dbTwoUse reqAlice 1)
            (loserMk dbTwoUse reqAlice drill 9 5)).reverse
          ++ winnerEntry dbTwoUse reqAlice drill 9 5 :: dbTwoUse.histories
      ∧ ∀ e ∈ loserEntries dbTwoUse.users (otherRequestsOf dbTwoUse reqAlice 1)
          (loserMk dbTwoUse reqAlice drill 9 5),
        e.action = HAction.rejected ∧ e.previous_status = some drill.status
        ∧ e.new_status = some (approvedStatus reqAlice.type)) :=
  ⟨by decide, by decide, by decide,
    approveRequest_rejection_entries dbTwoUse 1 9 5 noFail reqAlice drill
      (by decide) (by decide) (by decide)⟩

/-! ### Frame lemmas: what each operation leaves untouched -/

/-- The loser loop only ever appends history entries, whether or not it runs
to completion. -/
theorem rejectLosers_frame (others : List PendingRequest) (db : DB) (s : Nat)
    (mk : PendingRequest → String → History) (fails : Nat → Bool) :
    (rejectLosers db others s mk fails).2.1.items = db.items
    ∧ (rejectLosers db others s mk fails).2.1.pending_requests = db.pending_requests
    ∧ (rejectLosers db others s mk fails).2.1.users = db.users
    ∧ (rejectLosers db others s mk fails).2.1.next_id = db.next_id := by
  induction others generalizing db s with
  | nil => simp [rejectLosers]
  | cons o rest ih =>
    rw [rejectLosers]
    cases hu : db.users.find? (fun x : User => x.id == o.requested_by) with
    | none => exact ih db s
    | some u =>
      by_cases hf : fails s = true
      · simp [hf]
      · simpa [hf, createEntry] using ih (createEntry db (mk o u.username)) (s + 1)

/-- `approveRequest` never adds a pending request: whatever happens, the
queue afterwards is a sublist of the queue before. -/
theorem approveRequest_pending_sublist (db : DB) (requestId approvedBy now : Nat)
    (fails : Nat → Bool) :
    ((approveRequest db requestId approvedBy now fails).db.pending_requests).Sublist
      db.pending_requests := by
  unfold approveRequest
  cases hreq : db.pending_requests.find? (fun r => r.id == requestId) with
  | none => exact List.Sublist.refl _
  | some request =>
    dsimp only
    cases hitem : db.items.find? (fun i => i.id == request.item_id) with
    | none => exact List.Sublist.refl _
    | some item =>
      dsimp only
      by_cases h0 : fails 0 = true
      · simp [h0]
      · rw [if_neg h0]
        by_cases h1 : fails 1 = true
        · simp [h1, dbUpdateItem]
        · rw [if_neg h1]
          have hfr := rejectLosers_frame (otherRequestsOf db request requestId)
            (createEntry
              (dbUpdateItem db item.id (fun i =>
                updateItemStatus i (approvedStatus request.type) approvedBy
                  (approvedData request) now))
              (winnerEntry db request item approvedBy now)) 2
            (loserMk db request item approvedBy now) fails
          cases hfst : (rejectLosers
              (createEntry
                (dbUpdateItem db item.id (fun i =>
                  updateItemStatus i (approvedStatus request.type) approvedBy
                    (approvedData request) now))
                (winnerEntry db request item approvedBy now))
              (otherRequestsOf db request requestId) 2
              (loserMk db request item approvedBy now) fails).1 with
          | some msg =>
            simp only [hfst]
            rw [hfr.2.1]
            simp [createEntry, dbUpdateItem]
          | none =>
            simp only [hfst]
            by_cases hF : fails (rejectLosers
                (createEntry
                  (dbUpdateItem db item.id (fun i =>
                    updateItemStatus i (approvedStatus request.type) approvedBy
                      (approvedData request) now))
                  (winnerEntry db request item approvedBy now))
                (otherRequestsOf db request requestId) 2
                (loserMk db request item approvedBy now) fails).2.2 = true
            · rw [if_pos hF]
              rw [hfr.2.1]
              simp [createEntry, dbUpdateItem]
            · rw [if_neg hF]
              dsimp only
              rw [hfr.2.1]
              simp only [createEntry, dbUpdateItem]
              exact List.filter_sublist _

/-- Every item row after `approveRequest` is either an original row or an
original row passed through the approval update. -/
theorem approveRequest_items_cases (db : DB) (requestId approvedBy now : Nat)
    (fails : Nat → Bool) :
    ∀ i ∈ (approveRequest db requestId approvedBy now fails).db.items,
      i ∈ db.items
      ∨ ∃ j ∈ db.items, ∃ request : PendingRequest,
          i = updateItemStatus j (approvedStatus request.type) approvedBy
            (approvedData request) now := by
  unfold approveRequest
  cases hreq : db.pending_requests.find? (fun r => r.id == requestId) with
  | none => exact fun i hi => Or.inl hi
  | some request =>
    dsimp only
    cases hitem : db.items.find? (fun i => i.id == request.item_id) with
    | none => exact fun i hi => Or.inl hi
    | some item =>
      dsimp only
      by_cases h0 : fails 0 = true
      · simp only [if_pos h0]
        exact fun i hi => Or.inl hi
      · rw [if_neg h0]
        have key : ∀ i ∈ (dbUpdateItem db item.id (fun i =>
            updateItemStatus i (approvedStatus request.type) approvedBy
              (approvedData request) now)).items,
            i ∈ db.items
            ∨ ∃ j ∈ db.items, ∃ request2 : PendingRequest,
                i = updateItemStatus j (approvedStatus request2.type) approvedBy
                  (approvedData request2) now := by
          intro i hi
          simp only [dbUpdateItem, List.mem_map] at hi
          obtain ⟨j, hj, rfl⟩ := hi
          by_cases hc : (j.id == item.id) = true
          · rw [if_pos hc]
            exact Or.inr ⟨j, hj, request, rfl⟩
          · rw [if_neg hc]
            exact Or.inl hj
        by_cases h1 : fails 1 = true
        · simpa [h1] using key
        · rw [if_neg h1]
          have hfr := rejectLosers_frame (otherRequestsOf db request requestId)
            (createEntry
              (dbUpdateItem db item.id (fun i =>
                updateItemStatus i (approvedStatus request.type) approvedBy
                  (approvedData request) now))
              (winnerEntry db request item approvedBy now)) 2
            (loserMk db request item approvedBy now) fails
          cases hfst : (rejectLosers
              (createEntry
                (dbUpdateItem db item.id (fun i =>
                  updateItemStatus i (approvedStatus request.type) approvedBy
                    (approvedData request) now))
                (winnerEntry db request item approvedBy now))
              (otherRequestsOf db request requestId) 2
              (loserMk db request item approvedBy now) fails).1 with
          | some msg =>
            simp only [hfst]
            rw [hfr.1]
            simpa [createEntry] using key
          | none =>
            simp only [hfst]
            by_cases hF : fails (rejectLosers
                (createEntry
                  (dbUpdateItem db item.id (fun i =>
                    updateItemStatus i (approvedStatus request.type) approvedBy
                      (approvedData request) now))
                  (winnerEntry db request item approvedBy now))
                (otherRequestsOf db request requestId) 2
                (loserMk db request item approvedBy now) fails).2.2 = true
            · rw [if_pos hF]
              dsimp only
              rw [hfr.1]
              simpa [createEntry] using key
            · rw [if_neg hF]
              dsimp only
              rw [hfr.1]
              simpa [createEntry] using key

/-- Characterization of a successful `handleBorrowReturn`: the store gains
exactly one pending request (for the action type the UI derives from the
item status) plus one history entry, the service-side duplicate check was
false, and nothing else changes. -/
theorem handleBorrowReturn_ok (db : DB) (item : Item) (userId now : Nat) (db2 : DB)
    (h : handleBorrowReturn db item userId now = Except.ok db2) :
    db2.items = db.items
    ∧ db2.users = db.users
    ∧ db2.next_id = db.next_id + 1
    ∧ db2.pending_requests
        = { id := db.next_id, item_id := item.id,
            type := if item.status == Status.available then ReqType.use else ReqType.ret,
            requested_by := userId, requested_at := now } :: db.pending_requests
    ∧ hasUserPendingRequest db item.id userId
        (if item.status == Status.available then ReqType.use else ReqType.ret) = false := by
  unfold handleBorrowReturn at h
  split at h
  · exact absurd h (by simp)
  by_cases hav : (item.status == Status.available) = true
  · rw [if_pos hav] at h ⊢
    dsimp only at h
    split at h
    · exact absurd h (by simp)
    have hst : item.status = Status.available := by simpa using hav
    rw [hst] at h
    dsimp only at h
    cases hcr : createRequest db item.id userId ReqType.use now with
    | error e => rw [hcr] at h; exact absurd h (by simp)
    | ok db1 =>
      rw [hcr] at h
      simp only [Except.ok.injEq] at h
      subst h
      unfold createRequest at hcr
      split at hcr
      · exact absurd hcr (by simp)
      split at hcr
      · exact absurd hcr (by simp)
      rename_i hdup hval
      simp only [Except.ok.injEq] at hcr
      subst hcr
      refine ⟨rfl, rfl, rfl, rfl, ?_⟩
      simpa using hdup
  · rw [if_neg hav] at h ⊢
    dsimp only at h
    split at h
    · exact absurd h (by simp)
    split at h
    · exact absurd h (by simp)
    · rename_i historyAction heq
      cases hcr : createRequest db item.id userId ReqType.ret now with
      | error e => rw [hcr] at h; exact absurd h (by simp)
      | ok db1 =>
        rw [hcr] at h
        simp only [Except.ok.injEq] at h
        subst h
        unfold createRequest at hcr
        split at hcr
        · exact absurd hcr (by simp)
        split at hcr
        · exact absurd hcr (by simp)
        rename_i hdup hval
        simp only [Except.ok.injEq] at hcr
        subst hcr
        refine ⟨rfl, rfl, rfl, rfl, ?_⟩
        simpa using hdup

/-- Characterization of a successful `rejectRequest`: only the one request
disappears and one history entry is added. -/
theorem rejectRequest_ok (db : DB) (requestId rejectedBy now : Nat) (db2 : DB)
    (h : rejectRequest db requestId rejectedBy now = Except.ok db2) :
    db2.items = db.items
    ∧ db2.users = db.users
    ∧ db2.next_id = db.next_id
    ∧ db2.pending_requests = db.pending_requests.filter (fun r => r.id != requestId) := by
  unfold rejectRequest at h
  split at h
  · exact absurd h (by simp)
  · split at h
    · exact absurd h (by simp)
    · simp only [Except.ok.injEq] at h
      subst h
      exact ⟨rfl, rfl, rfl, rfl⟩

/-- Characterization of a successful `createItem`: one fresh available item
with no borrower is prepended and the id counter advances. -/
theorem createItem_ok (db : DB) (material : String) (description : Option String)
    (serial_number : String) (changedBy now : Nat) (db2 : DB)
    (h : createItem db material description serial_number changedBy now = Except.ok db2) :
    db2.items
      = { id := db.next_id, material := material, description := description,
          serial_number := serial_number, status := Status.available,
          last_used_by := none, changed_by := some changedBy, archived_reason := none,
          archived_at := none, created_at := now, updated_at := now,
          pending_request_id := none } :: db.items
    ∧ db2.pending_requests = db.pending_requests
    ∧ db2.users = db.users
    ∧ db2.next_id = db.next_id + 1 := by
  unfold createItem at h
  split at h
  · exact absurd h (by simp)
  · simp only [Except.ok.injEq] at h
    subst h
    exact ⟨rfl, rfl, rfl, rfl⟩

/-! ### The at-most-one-open-request-per-tuple invariant (C7) -/

/-- At most one open request exists per (item, requester, type) tuple. -/
def pendingAtMostOne (l : List PendingRequest) : Prop :=
  ∀ r ∈ l, (l.filter (fun q => q.item_id == r.item_id
    && q.requested_by == r.requested_by && q.type == r.type)).length ≤ 1

/-- The invariant, read off a store. -/
def reqAtMostOne (db : DB) : Prop := pendingAtMostOne db.pending_requests

theorem pendingAtMostOne_sublist {l1 l2 : List PendingRequest}
    (hsub : l1.Sublist l2) (h : pendingAtMostOne l2) : pendingAtMostOne l1 := by
  intro r hr
  exact le_trans (List.Sublist.length_le (List.Sublist.filter _ hsub))
    (h r (hsub.subset hr))

/-- Under the invariant, a tuple whose count is not exactly one has count
zero. -/
theorem tuple_count_zero (l : List PendingRequest) (itemId userId : Nat) (ty : ReqType)
    (h : pendingAtMostOne l)
    (hne : ((l.filter (fun r => r.item_id == itemId && r.requested_by == userId
      && r.type == ty)).length == 1) = false) :
    (l.filter (fun r => r.item_id == itemId && r.requested_by == userId
      && r.type == ty)).length = 0 := by
  by_contra hz
  obtain ⟨r, hrmem⟩ := List.exists_mem_of_length_pos (Nat.pos_of_ne_zero hz)
  have hrf := hrmem
  rw [List.mem_filter] at hrf
  obtain ⟨hrl, hrp⟩ := hrf
  simp only [Bool.and_eq_true, beq_iff_eq] at hrp
  obtain ⟨⟨e1, e2⟩, e3⟩ := hrp
  have hle := h r hrl
  rw [e1, e2, e3] at hle
  have hne2 : (l.filter (fun r => r.item_id == itemId && r.requested_by == userId
      && r.type == ty)).length ≠ 1 := by simpa using hne
  omega

/-- Inserting a request whose tuple is absent preserves the invariant. -/
theorem pendingAtMostOne_insert (l : List PendingRequest) (nr : PendingRequest)
    (h : pendingAtMostOne l)
    (hnew : (l.filter (fun q => q.item_id == nr.item_id
      && q.requested_by == nr.requested_by && q.type == nr.type)).length = 0) :
    pendingAtMostOne (nr :: l) := by
  have hnil : l.filter (fun q => q.item_id == nr.item_id
      && q.requested_by == nr.requested_by && q.type == nr.type) = [] :=
    List.length_eq_zero.mp hnew
  intro r hr
  rcases List.mem_cons.mp hr with rfl | hr2
  · rw [List.filter_cons]
    simp only [beq_self_eq_true, Bool.and_self, if_true]
    rw [hnil]
    simp
  · rw [List.filter_cons]
    by_cases hc : (nr.item_id == r.item_id && nr.requested_by == r.requested_by
        && nr.type == r.type) = true
    · exfalso
      simp only [Bool.and_eq_true, beq_iff_eq] at hc
      obtain ⟨⟨c1, c2⟩, c3⟩ := hc
      have hrmem : r ∈ l.filter (fun q => q.item_id == nr.item_id
          && q.requested_by == nr.requested_by && q.type == nr.type) := by
        rw [List.mem_filter]
        refine ⟨hr2, ?_⟩
        simp [c1, c2, c3]
      rw [hnil] at hrmem
      cases hrmem
    · rw [if_neg hc]
      exact h r hr2

/-- Every operation preserves the at-most-one-open-request invariant. -/
theorem step_preserves_reqAtMostOne (db : DB) (op : Op) (now : Nat)
    (h : reqAtMostOne db) : reqAtMostOne (step db op now) := by
  cases op with
  | create m d s c =>
    unfold step
    dsimp only
    cases hc : createItem db m d s c now with
    | error e => exact h
    | ok db1 =>
      have h2 := (createItem_ok db m d s c now db1 hc).2.1
      unfold reqAtMostOne
      dsimp only
      rw [h2]
      exact h
  | submit itemId userId =>
    unfold step
    dsimp only
    cases hit : getItemById db itemId with
    | none => exact h
    | some item =>
      dsimp only
      cases hbr : handleBorrowReturn db item userId now with
      | error e => exact h
      | ok db2 =>
        dsimp only
        obtain ⟨hitems, husers, hnid, hpend, hdup⟩ :=
          handleBorrowReturn_ok db item userId now db2 hbr
        unfold reqAtMostOne
        rw [hpend]
        apply pendingAtMostOne_insert _ _ h
        have hz := tuple_count_zero db.pending_requests item.id userId
          (if item.status == Status.available then ReqType.use else ReqType.ret) h
          (by simpa [hasUserPendingRequest] using hdup)
        simpa using hz
  | approve rid uid =>
    exact pendingAtMostOne_sublist (approveRequest_pending_sublist db rid uid now noFail) h
  | reject rid uid =>
    unfold step
    dsimp only
    cases hr : rejectRequest db rid uid now with
    | error e => exact h
    | ok db2 =>
      have h2 := (rejectRequest_ok db rid uid now db2 hr).2.2.2
      unfold reqAtMostOne
      dsimp only
      rw [h2]
      exact pendingAtMostOne_sublist (List.filter_sublist _) h
  | archive itemId reason userId =>
    unfold step
    dsimp only
    cases hit : getItemById db itemId with
    | none => exact h
    | some item =>
      dsimp only
      by_cases hg : archiveButtonShown item = true
      · rw [if_pos hg]
        exact h
      · rw [if_neg hg]
        exact h
  | restore itemId reason userId =>
    unfold step
    dsimp only
    cases hit : getItemById db itemId with
    | none => exact h
    | some item =>
      dsimp only
      by_cases hg : restoreButtonShown item = true
      · rw [if_pos hg]
        exact h
      · rw [if_neg hg]
        exact h

/-- Whole-run preservation of the at-most-one-open-request invariant. -/
theorem run_preserves_reqAtMostOne (ops : List (Op × Nat)) (db : DB)
    (h : reqAtMostOne db) : reqAtMostOne (run db ops) := by
  induction ops generalizing db with
  | nil => exact h
  | cons p rest ih => exact ih (step db p.1 p.2) (step_preserves_reqAtMostOne db p.1 p.2 h)

/-! ### C7 -/

/-- **C7** (confirmed): on a store satisfying the at-most-one-open-request
invariant, `createRequest` fails with the duplicate error whenever an open
request with the exact (item, requester, type) tuple already exists, and no
sequence of core operations ever creates a second open request for the same
tuple (the invariant is preserved by every operation). -/
theorem submitRequest_duplicate_invariant (db : DB) (h : reqAtMostOne db) :
    (∀ (itemId userId nowT : Nat) (ty : ReqType) (r : PendingRequest),
      r ∈ db.pending_requests → r.item_id = itemId → r.requested_by = userId →
      r.type = ty →
      createRequest db itemId userId ty nowT
        = Except.error ("You already have a pending request for this item"))
    ∧ ∀ ops : List (Op × Nat), reqAtMostOne (run db ops) := by
  constructor
  · intro itemId userId nowT ty r hr h1 h2 h3
    have hmem : r ∈ db.pending_requests.filter (fun q => q.item_id == itemId
        && q.requested_by == userId && q.type == ty) := by
      rw [List.mem_filter]
      refine ⟨hr, ?_⟩
      simp [h1, h2, h3]
    have hge : 0 < (db.pending_requests.filter (fun q => q.item_id == itemId
        && q.requested_by == userId && q.type == ty)).length :=
      List.length_pos.mpr (List.ne_nil_of_mem hmem)
    have hle := h r hr
    rw [h1, h2, h3] at hle
    have hone : (db.pending_requests.filter (fun q => q.item_id == itemId
        && q.requested_by == userId && q.type == ty)).length = 1 := by omega
    unfold createRequest hasUserPendingRequest
    rw [if_pos (by simpa using hone)]
  · exact fun ops => run_preserves_reqAtMostOne ops db h

/-- Witness for `submitRequest_duplicate_invariant` on a concrete store with
one open request and a short run of operations. -/
theorem submitRequest_duplicate_invariant_witness :
    reqAtMostOne dbOneUse
    ∧ createRequest dbOneUse 0 1 ReqType.use 7
        = Except.error ("You already have a pending request for this item")
    ∧ reqAtMostOne (run dbOneUse
        [(Op.submit 0 2, 8), (Op.approve 1 9, 9), (Op.submit 0 2, 10)]) :=
  ⟨by unfold reqAtMostOne pendingAtMostOne; decide,
    (submitRequest_duplicate_invariant dbOneUse
      (by unfold reqAtMostOne pendingAtMostOne; decide)).1 0 1 7 ReqType.use
      reqAlice (by decide) rfl rfl rfl,
    (submitRequest_duplicate_invariant dbOneUse
      (by unfold reqAtMostOne pendingAtMostOne; decide)).2
      [(Op.submit 0 2, 8), (Op.approve 1 9, 9), (Op.submit 0 2, 10)]⟩

/-- Shape of the store after `approveRequest`, successful or not: the id
counter and user table are untouched, and the item rows are either untouched
or mapped through the approval update of the target item. -/
theorem approveRequest_shape (db : DB) (requestId approvedBy now : Nat)
    (fails : Nat → Bool) :
    (approveRequest db requestId approvedBy now fails).db.next_id = db.next_id
    ∧ (approveRequest db requestId approvedBy now fails).db.users = db.users
    ∧ ((approveRequest db requestId approvedBy now fails).db.items = db.items
       ∨ ∃ (itemId : Nat) (request : PendingRequest),
           (approveRequest db requestId approvedBy now fails).db.items
             = db.items.map (fun i => if i.id == itemId then
                 updateItemStatus i (approvedStatus request.type) approvedBy
                   (approvedData request) now else i)) := by
  unfold approveRequest
  cases hreq : db.pending_requests.find? (fun r => r.id == requestId) with
  | none => exact ⟨rfl, rfl, Or.inl rfl⟩
  | some request =>
    dsimp only
    cases hitem : db.items.find? (fun i => i.id == request.item_id) with
    | none => exact ⟨rfl, rfl, Or.inl rfl⟩
    | some item =>
      dsimp only
      by_cases h0 : fails 0 = true
      · rw [if_pos h0]
        exact ⟨rfl, rfl, Or.inl rfl⟩
      · rw [if_neg h0]
        by_cases h1 : fails 1 = true
        · rw [if_pos h1]
          exact ⟨rfl, rfl, Or.inr ⟨item.id, request, rfl⟩⟩
        · rw [if_neg h1]
          have hfr := rejectLosers_frame (otherRequestsOf db request requestId)
            (createEntry
              (dbUpdateItem db item.id (fun i =>
                updateItemStatus i (approvedStatus request.type) approvedBy
                  (approvedData request) now))
              (winnerEntry db request item approvedBy now)) 2
            (loserMk db request item approvedBy now) fails
          cases hfst : (rejectLosers
              (createEntry
                (dbUpdateItem db item.id (fun i =>
                  updateItemStatus i (approvedStatus request.type) approvedBy
                    (approvedData request) now))
                (winnerEntry db request item approvedBy now))
              (otherRequestsOf db request requestId) 2
              (loserMk db request item approvedBy now) fails).1 with
          | some msg =>
            simp only [hfst]
            refine ⟨?_, ?_, Or.inr ⟨item.id, request, ?_⟩⟩
            · rw [hfr.2.2.2]; rfl
            · rw [hfr.2.2.1]; rfl
            · rw [hfr.1]; rfl
          | none =>
            simp only [hfst]
            by_cases hF : fails (rejectLosers
                (createEntry
                  (dbUpdateItem db item.id (fun i =>
                    updateItemStatus i (approvedStatus request.type) approvedBy
                      (approvedData request) now))
                  (winnerEntry db request item approvedBy now))
                (otherRequestsOf db request requestId) 2
                (loserMk db request item approvedBy now) fails).2.2 = true
            · rw [if_pos hF]
              refine ⟨?_, ?_, Or.inr ⟨item.id, request, ?_⟩⟩
              · rw [hfr.2.2.2]; rfl
              · rw [hfr.2.2.1]; rfl
              · rw [hfr.1]; rfl
            · rw [if_neg hF]
              dsimp only
              refine ⟨?_, ?_, Or.inr ⟨item.id, request, ?_⟩⟩
              · rw [hfr.2.2.2]; rfl
              · rw [hfr.2.2.1]; rfl
              · rw [hfr.1]; rfl

/-! ### The used-iff-borrower invariant (C9) -/

/-- Spec section 8: an item is `used` exactly when a borrower is recorded. -/
def itemInvariant (db : DB) : Prop :=
  ∀ i ∈ db.items, (i.status = Status.used ↔ i.last_used_by ≠ none)

/-- Bookkeeping: the generated item ids are pairwise distinct and below the
id counter. -/
def uniqueItemIds (db : DB) : Prop :=
  db.items.Pairwise (fun a b => a.id ≠ b.id) ∧ ∀ i ∈ db.items, i.id < db.next_id

/-- The inductive invariant of the run: used-iff-borrower plus id
uniqueness. -/
def coreInvariant (db : DB) : Prop := itemInvariant db ∧ uniqueItemIds db

/-- Two rows with the same id in a duplicate-free table are the same row. -/
theorem eq_of_same_id {l : List Item} (hp : l.Pairwise (fun a b => a.id ≠ b.id))
    {a b : Item} (ha : a ∈ l) (hb : b ∈ l) (hid : a.id = b.id) : a = b := by
  induction l with
  | nil => cases ha
  | cons c t ih =>
    rcases List.mem_cons.mp ha with rfl | ha2
    · rcases List.mem_cons.mp hb with rfl | hb2
      · rfl
      · exact absurd hid ((List.pairwise_cons.mp hp).1 b hb2)
    · rcases List.mem_cons.mp hb with rfl | hb2
      · exact absurd hid.symm ((List.pairwise_cons.mp hp).1 a ha2)
      · exact ih (List.pairwise_cons.mp hp).2 ha2 hb2

/-- Mapping an id-preserving row function over the table keeps ids distinct
and bounded. -/
theorem uniqueRows_map {l : List Item} {n : Nat} (f : Item → Item)
    (hid : ∀ i, (f i).id = i.id)
    (hp : l.Pairwise (fun a b => a.id ≠ b.id)) (hb : ∀ i ∈ l, i.id < n) :
    (l.map f).Pairwise (fun a b => a.id ≠ b.id) ∧ ∀ i ∈ l.map f, i.id < n := by
  constructor
  · exact List.Pairwise.map f (fun a b hab => by rw [hid, hid]; exact hab) hp
  · intro i hi
    obtain ⟨j, hj, rfl⟩ := List.mem_map.mp hi
    rw [hid]
    exact hb j hj

/-- The per-row approval update preserves the row id. -/
theorem approval_row_id (itemId approvedBy now : Nat) (request : PendingRequest) :
    ∀ i : Item, ((fun i => if i.id == itemId then
      updateItemStatus i (approvedStatus request.type) approvedBy
        (approvedData request) now else i) i).id = i.id := by
  intro i
  by_cases hc : (i.id == itemId) = true
  · simp only [hc, if_true]
    exact updateItemStatus_id i _ approvedBy _ now
  · simp only [hc]
    rw [if_neg (by simp [hc])]

/-- Every UI-reachable operation preserves the used-iff-borrower invariant
together with id uniqueness. -/
theorem step_preserves_coreInvariant (db : DB) (op : Op) (now : Nat)
    (h : coreInvariant db) : coreInvariant (step db op now) := by
  obtain ⟨hinv, hpair, hbound⟩ := h
  cases op with
  | create m d s c =>
    unfold step
    dsimp only
    cases hc : createItem db m d s c now with
    | error e => exact ⟨hinv, hpair, hbound⟩
    | ok db1 =>
      obtain ⟨hitems, hpend, husers, hnid⟩ := createItem_ok db m d s c now db1 hc
      refine ⟨?_, ?_, ?_⟩
      · intro i hi
        rw [hitems] at hi
        rcases List.mem_cons.mp hi with rfl | hi2
        · simp
        · exact hinv i hi2
      · rw [hitems]
        rw [List.pairwise_cons]
        refine ⟨?_, hpair⟩
        intro j hj
        have := hbound j hj
        simp only
        omega
      · intro i hi
        rw [hitems] at hi
        rw [hnid]
        rcases List.mem_cons.mp hi with rfl | hi2
        · simp
        · have := hbound i hi2
          omega
  | submit itemId userId =>
    unfold step
    dsimp only
    cases hit : getItemById db itemId with
    | none => exact ⟨hinv, hpair, hbound⟩
    | some item =>
      dsimp only
      cases hbr : handleBorrowReturn db item userId now with
      | error e => exact ⟨hinv, hpair, hbound⟩
      | ok db2 =>
        obtain ⟨hitems, husers, hnid, hpend, hdup⟩ :=
          handleBorrowReturn_ok db item userId now db2 hbr
        rw [coreInvariant, itemInvariant, uniqueItemIds, hitems, hnid]
        refine ⟨hinv, hpair, ?_⟩
        intro i hi
        have := hbound i hi
        omega
  | approve rid uid =>
    have hsh := approveRequest_shape db rid uid now noFail
    unfold step
    rcases hsh.2.2 with heq | ⟨itemId, request, heq⟩
    · rw [coreInvariant, itemInvariant, uniqueItemIds, heq, hsh.1]
      exact ⟨hinv, hpair, hbound⟩
    · rw [coreInvariant, itemInvariant, uniqueItemIds, heq, hsh.1]
      refine ⟨?_, ?_⟩
      · intro i hi
        obtain ⟨j, hj, rfl⟩ := List.mem_map.mp hi
        by_cases hc : (j.id == itemId) = true
        · rw [if_pos hc]
          cases htype : request.type with
          | use => simp [approvedStatus, approvedData, htype, updateItemStatus_use]
          | ret => simp [approvedStatus, approvedData, htype, updateItemStatus_return]
        · rw [if_neg hc]
          exact hinv j hj
      · exact uniqueRows_map _ (approval_row_id itemId uid now request) hpair hbound
  | reject rid uid =>
    unfold step
    dsimp only
    cases hr : rejectRequest db rid uid now with
    | error e => exact ⟨hinv, hpair, hbound⟩
    | ok db2 =>
      obtain ⟨hitems, husers, hnid, hpend⟩ := rejectRequest_ok db rid uid now db2 hr
      rw [coreInvariant, itemInvariant, uniqueItemIds, hitems, hnid]
      exact ⟨hinv, hpair, hbound⟩
  | archive itemId reason userId =>
    unfold step
    dsimp only
    cases hit : getItemById db itemId with
    | none => exact ⟨hinv, hpair, hbound⟩
    | some item =>
      dsimp only
      by_cases hg : archiveButtonShown item = true
      · rw [if_pos hg]
        have hitem_mem : item ∈ db.items :=
          List.mem_of_find?_eq_some hit
        have hnotused : item.status ≠ Status.used := by
          unfold archiveButtonShown at hg
          simp only [Bool.and_eq_true, bne_iff_ne, ne_eq] at hg
          exact hg.2
        have hlub : item.last_used_by = none := by
          have := hinv item hitem_mem
          by_contra hne
          exact hnotused (this.mpr hne)
        rw [coreInvariant, itemInvariant, uniqueItemIds]
        unfold confirmArchive createEntry dbUpdateItem
        refine ⟨?_, ?_⟩
        · intro i hi
          simp only at hi
          obtain ⟨j, hj, rfl⟩ := List.mem_map.mp hi
          by_cases hc : (j.id == item.id) = true
          · rw [if_pos hc]
            rw [updateItemStatus_archive]
            have hj_eq : j = item :=
              eq_of_same_id hpair hj hitem_mem (by simpa using hc)
            subst hj_eq
            simp [hlub]
          · rw [if_neg hc]
            exact hinv j hj
        · simp only
          refine uniqueRows_map _ ?_ hpair hbound
          intro i
          by_cases hc : (i.id == item.id) = true
          · simp only [hc, if_true]
            exact updateItemStatus_id i _ userId _ now
          · simp only [hc]
            rw [if_neg (by simp [hc])]
      · rw [if_neg hg]
        exact ⟨hinv, hpair, hbound⟩
  | restore itemId reason userId =>
    unfold step
    dsimp only
    cases hit : getItemById db itemId with
    | none => exact ⟨hinv, hpair, hbound⟩
    | some item =>
      dsimp only
      by_cases hg : restoreButtonShown item = true
      · rw [if_pos hg]
        rw [coreInvariant, itemInvariant, uniqueItemIds]
        unfold confirmUnarchive createEntry dbUpdateItem
        refine ⟨?_, ?_⟩
        · intro i hi
          simp only at hi
          obtain ⟨j, hj, rfl⟩ := List.mem_map.mp hi
          by_cases hc : (j.id == item.id) = true
          · rw [if_pos hc]
            rw [updateItemStatus_restore]
            simp
          · rw [if_neg hc]
            exact hinv j hj
        · simp only
          refine uniqueRows_map _ ?_ hpair hbound
          intro i
          by_cases hc : (i.id == item.id) = true
          · simp only [hc, if_true]
            exact updateItemStatus_id i _ userId _ now
          · simp only [hc]
            rw [if_neg (by simp [hc])]
      · rw [if_neg hg]
        exact ⟨hinv, hpair, hbound⟩

/-- Whole-run preservation of the core invariant. -/
theorem run_preserves_coreInvariant (ops : List (Op × Nat)) (db : DB)
    (h : coreInvariant db) : coreInvariant (run db ops) := by
  induction ops generalizing db with
  | nil => exact h
  | cons p rest ih =>
    exact ih (step db p.1 p.2) (step_preserves_coreInvariant db p.1 p.2 h)

/-! ### C9 -/

/-- **C9** (confirmed): starting from any store satisfying the core
invariant, after any sequence of core operations an item is `used` exactly
when its `last_used_by` is non-null. -/
theorem used_iff_borrower_after_run (db : DB) (h : coreInvariant db)
    (ops : List (Op × Nat)) :
    ∀ i ∈ (run db ops).items, (i.status = Status.used ↔ i.last_used_by ≠ none) :=
  (run_preserves_coreInvariant ops db h).1

/-- Witness for `used_iff_borrower_after_run`: a concrete run that creates an
item, submits a borrow request and approves it. -/
theorem used_iff_borrower_after_run_witness :
    coreInvariant dbOneUse
    ∧ ∀ i ∈ (run dbOneUse
        [(Op.approve 1 9, 5), (Op.create "saw" none "SN2" 9, 6),
         (Op.submit 0 1, 7), (Op.archive 3 "worn" 9, 8)]).items,
      (i.status = Status.used ↔ i.last_used_by ≠ none) :=
  ⟨by unfold coreInvariant itemInvariant uniqueItemIds; decide,
    used_iff_borrower_after_run dbOneUse
      (by unfold coreInvariant itemInvariant uniqueItemIds; decide)
      [(Op.approve 1 9, 5), (Op.create "saw" none "SN2" 9, 6),
       (Op.submit 0 1, 7), (Op.archive 3 "worn" 9, 8)]⟩

/-! ### C5 -/

/-- Every open return request was filed by the current borrower of an item
still in use.  This holds of every store the operations can produce:
`createRequest` validates return requests against the live item, and
approval clears the whole queue of an item whenever its state changes. -/
def returnRequestsValid (db : DB) : Prop :=
  ∀ r ∈ db.pending_requests, r.type = ReqType.ret →
    ∀ i ∈ db.items, i.id = r.item_id →
      i.status = Status.used ∧ i.last_used_by = some r.requested_by

/-- **C5** (confirmed): the submit flow validates the item state before
enqueuing — an archived item is always rejected (with the invalid-state
error when the store satisfies the return-request invariant), and the flow
only ever enqueues a `use` request when the item it read is available. -/
theorem submit_validates_item_state (db : DB) (item : Item) (userId now : Nat)
    (hinv : returnRequestsValid db)
    (hitem : getItemById db item.id = some item) :
    (item.status = Status.archived →
      handleBorrowReturn db item userId now
        = Except.error ("Cannot perform action on this item"))
    ∧ ((if item.status == Status.available then ReqType.use else ReqType.ret)
          = ReqType.use → item.status = Status.available) := by
  constructor
  · intro harch
    have hcl : clientHasPendingRequest db item.id userId ReqType.ret = false := by
      unfold clientHasPendingRequest
      rw [List.any_eq_false]
      intro r hr
      simp only [Bool.and_eq_true, beq_iff_eq, not_and]
      intro hid hty
      have := hinv r hr hty item (List.mem_of_find?_eq_some hitem) hid.1.symm
      rw [harch] at this
      cases this.1
    unfold handleBorrowReturn
    rw [if_neg (by simp [harch])]
    rw [harch]
    simp [hcl]
  · intro huse
    by_cases hs : (item.status == Status.available) = true
    · simpa using hs
    · rw [if_neg hs] at huse
      exact absurd huse (by decide)

/-- Witness for `submit_validates_item_state` at a concrete archived item. -/
theorem submit_validates_item_state_witness :
    returnRequestsValid dbArchived
    ∧ getItemById dbArchived drillArchived.id = some drillArchived
    ∧ ((drillArchived.status = Status.archived →
        handleBorrowReturn dbArchived drillArchived 2 5
          = Except.error ("Cannot perform action on this item"))
      ∧ ((if drillArchived.status == Status.available then ReqType.use else ReqType.ret)
            = ReqType.use → drillArchived.status = Status.available)) :=
  ⟨by unfold returnRequestsValid; decide, by decide,
    submit_validates_item_state dbArchived drillArchived 2 5
      (by unfold returnRequestsValid; decide) (by decide)⟩

/-! ### C6 -/

/-- **C6** (confirmed): on a store satisfying the return-request invariant, a
return submission by anyone who is not the current borrower of an item in
use fails the return validation and `createRequest` surfaces exactly that
validation error, creating nothing. -/
theorem return_requires_current_borrower (db : DB) (item : Item)
    (itemId userId now : Nat)
    (hinv : returnRequestsValid db)
    (hitem : getItemById db itemId = some item)
    (hnot : ¬(item.status = Status.used ∧ item.last_used_by = some userId)) :
    (validateReturnRequest db itemId userId).valid = false
    ∧ createRequest db itemId userId ReqType.ret now
      = Except.error ((validateReturnRequest db itemId userId).message.getD
          ("Cannot create return request")) := by
  have hdup : hasUserPendingRequest db itemId userId ReqType.ret = false := by
    unfold hasUserPendingRequest
    have hfil : db.pending_requests.filter (fun r => r.item_id == itemId
        && r.requested_by == userId && r.type == ReqType.ret) = [] := by
      rw [List.filter_eq_nil_iff]
      intro r hr
      simp only [Bool.and_eq_true, beq_iff_eq, not_and]
      intro hid hty
      have hfound : item.id = itemId := by
        have := List.find?_some hitem
        simpa [getItemById] using this
      have := hinv r hr hty item (List.mem_of_find?_eq_some hitem)
        (by rw [hfound, hid.1])
      rw [hid.2] at this
      exact hnot ⟨this.1, this.2⟩
    rw [hfil]
    rfl
  have hval : (validateReturnRequest db itemId userId).valid = false := by
    unfold validateReturnRequest
    rw [hitem]
    by_cases hs : item.status = Status.used
    · have hlub : item.last_used_by ≠ some userId := fun hl => hnot ⟨hs, hl⟩
      simp [hs, hlub]
    · simp [hs]
  refine ⟨hval, ?_⟩
  unfold createRequest
  rw [hdup]
  simp [hval]

/-- Witness for `return_requires_current_borrower`: Bob cannot return the
drill Alice borrowed. -/
theorem return_requires_current_borrower_witness :
    returnRequestsValid dbUsed
    ∧ getItemById dbUsed 0 = some drillUsed
    ∧ ¬(drillUsed.status = Status.used ∧ drillUsed.last_used_by = some 2)
    ∧ ((validateReturnRequest dbUsed 0 2).valid = false
      ∧ createRequest dbUsed 0 2 ReqType.ret 5
        = Except.error ((validateReturnRequest dbUsed 0 2).message.getD
            ("Cannot create return request"))) :=
  ⟨by unfold returnRequestsValid; decide, by decide, by decide,
    return_requires_current_borrower dbUsed drillUsed 0 2 5
      (by unfold returnRequestsValid; decide) (by decide) (by decide)⟩

end Warehouse
